import Mathlib

set_option maxHeartbeats 1000000
set_option maxRecDepth 4000

/-
Shallow embedding of src/node/mission_manager_node.py (mission_manager).

Modelling conventions, kept uniform through the file:

* Numbers (latitudes, longitudes, speeds, distances) are rationals.
  Python floats are modelled exactly; none of the verified properties
  depends on rounding.
* External collaborators are abstracted into an `Env` record: the nav
  adapter supplies the vehicle position already converted to degrees
  (the source calls math.degrees on robot_nav.positionLatLon()), the
  path services are opaque functions, and json.loads is an opaque
  decoder from strings to the JSON item tree.  The nav adapter is
  modelled as always having a position fix.
* A Python task dictionary is a `Task`.  A dictionary key that holds
  None and a key that is absent are conflated into `Option.none`
  (the source treats them identically wherever both can occur on the
  paths modelled here).
* Python aliasing: `current_task` and `saved_task` hold references to
  task objects which may be elements of the `tasks` list; mutating a
  field through such a reference also mutates the list element.  This
  is modelled by `TaskRef`: `inList i` is a reference to `tasks[i]`,
  `det t` is a reference to a detached task (the synthesized hover).
* A Python statement that raises an uncaught exception (int() on a
  non-numeric string, AttributeError on the missing `self.task`,
  None + 1, indexing an empty parts list, json decoding errors) is
  modelled by returning `Option.none` from the operation.
-/

namespace MM

/-- Characters Python's str.split and str.strip treat as whitespace. -/
def pySpace (c : Char) : Bool :=
  c == ' ' || c == '\t' || c == '\n' || c == '\r' || c == '\x0b' || c == '\x0c'

/-- Worker for `pySplitAll`: accumulates the current token reversed. -/
def pySplitGo : List Char → List Char → List (List Char)
  | [], acc => if acc.isEmpty then [] else [acc.reverse]
  | c :: cs, acc =>
    if pySpace c then
      if acc.isEmpty then pySplitGo cs [] else acc.reverse :: pySplitGo cs []
    else pySplitGo cs (c :: acc)

/-- Python `s.split()` (split on whitespace runs, unlimited). -/
def pySplitAll (s : String) : List String :=
  (pySplitGo s.data []).map fun l => ⟨l⟩

/-- Python `s.split(None, 1)` (at most one split). -/
def pySplit1 (s : String) : List String :=
  let l := s.data.dropWhile pySpace
  match l with
  | [] => []
  | _ :: _ =>
    let tok := l.takeWhile fun c => !pySpace c
    let rest := (l.dropWhile fun c => !pySpace c).dropWhile pySpace
    if rest.isEmpty then [⟨tok⟩] else [⟨tok⟩, ⟨rest⟩]

/-- Python `s.strip()`. -/
def pyStrip (s : String) : String :=
  ⟨((s.data.dropWhile pySpace).reverse.dropWhile pySpace).reverse⟩

/-- Numeric value of a run of decimal digits. -/
def digitsVal (l : List Char) : ℕ :=
  l.foldl (fun a c => a * 10 + (c.toNat - 48)) 0

/-- Parses a nonempty all-digit string. -/
def digitsToNat (l : List Char) : Option ℕ :=
  if !l.isEmpty && l.all Char.isDigit then some (digitsVal l) else none

/-- Python `int(s)` restricted to optional sign and decimal digits
(the only shapes the program ever feeds it). Failure is `none`
(Python raises ValueError). -/
def pyInt (s : String) : Option ℤ :=
  match (pyStrip s).data with
  | '+' :: r => (digitsToNat r).map Int.ofNat
  | '-' :: r => (digitsToNat r).map fun n => -(n : ℤ)
  | r => (digitsToNat r).map Int.ofNat

/-- Unsigned decimal-form float body: digits, optional point, digits. -/
def pyFloatCore (r : List Char) : Option ℚ :=
  let ip := r.takeWhile Char.isDigit
  match r.dropWhile Char.isDigit with
  | [] => (digitsToNat ip).map fun n => (n : ℚ)
  | '.' :: fr =>
    if ip.isEmpty && fr.isEmpty then none
    else if fr.all Char.isDigit then
      some ((digitsVal ip : ℚ) + (digitsVal fr : ℚ) / ((10 : ℚ) ^ fr.length))
    else none
  | _ => none

/-- Python `float(s)` restricted to signed decimal forms (the only
shapes the program's commands use).  Failure is `none` (ValueError). -/
def pyFloat (s : String) : Option ℚ :=
  match (pyStrip s).data with
  | '+' :: r => pyFloatCore r
  | '-' :: r => (pyFloatCore r).map Neg.neg
  | r => pyFloatCore r

/-- Python `s.startswith(p)`. -/
def pyStartsWith (s p : String) : Bool :=
  p.data.isPrefixOf s.data

/-- The JSON tree handed to parseMission: a list of items, each item a
dict with a type, an optional speed / label / latitude / longitude /
waypoint list, and a list of child items.  A forest node is one item
followed by its siblings; fields the dict lacks are defaulted (the
source would raise KeyError on them, on paths not modelled here). -/
inductive PForest where
  | nil : PForest
  | cons (ty : String) (speed : ℚ) (label : String) (lat lon : ℚ)
      (waypoints : List (ℚ × ℚ)) (children : PForest) (rest : PForest) : PForest
deriving DecidableEq

/-- A single JSON item, as stored into `nav_objectives` (the source
stores the raw dict; all fields later read from a nav objective are
retained, children recursively). -/
structure SItem where
  ty : String
  speed : ℚ
  label : String
  lat : ℚ
  lon : ℚ
  waypoints : List (ℚ × ℚ)
  children : PForest
deriving DecidableEq

/-- The items of a forest, in order. -/
def forestItems : PForest → List SItem
  | .nil => []
  | .cons ty sp lb la lo wps ch rest => ⟨ty, sp, lb, la, lo, wps, ch⟩ :: forestItems rest

/-- parseMission's check that every child of a SurveyArea is a Waypoint. -/
def allWaypointChildren : PForest → Bool
  | .nil => true
  | .cons ty _ _ _ _ _ _ rest => ty == "Waypoint" && allWaypointChildren rest

/-- A task dictionary.  `goto` and `hover` carry the parsed latitude
and longitude; the transient path keys the motion states add to them
are not read by any operation modelled here and are omitted.
`missionPlan` carries every key parseMission and the state machine
use. -/
inductive Task where
  | goto (lat lon : ℚ)
  | hover (lat lon : ℚ)
  | missionPlan (label : String) (default_speed : ℚ) (do_transit : Bool)
      (nav_objectives : List SItem) (current_nav_objective_index : Option ℤ)
      (current_path : Option (List (ℚ × ℚ)))
      (transit_path : Option (List (ℚ × ℚ)))
deriving DecidableEq

/-- Python `task['type'] == 'mission_plan'`. -/
def Task.isPlan : Task → Bool
  | .missionPlan .. => true
  | _ => false

/-- A reference to a task object: an element of the tasks list, or a
detached dictionary (the synthesized hover). -/
inductive TaskRef where
  | inList (i : ℕ)
  | det (t : Task)
deriving DecidableEq

/-- MissionManagerCore's task-accounting state plus the configuration
fields the modelled operations read. -/
structure Core where
  tasks : List Task
  current_task : Option TaskRef
  override_task : Option Task
  saved_task : Option TaskRef
  pending_command : Option String
  done_behavior : String
  default_speed : ℚ
  waypointThreshold : ℚ
  planner : String
deriving DecidableEq

/-- External collaborators: the nav adapter (vehicle position in
degrees, distance to a point), the path builder used for line-up
transit paths, and the json decoder. -/
structure Env where
  vehicleLat : ℚ
  vehicleLon : ℚ
  distTo : ℚ → ℚ → ℚ
  lineupPath : ℚ → ℚ → ℚ → ℚ → List (ℚ × ℚ)
  jsonParse : String → Option PForest

/-- knots to m/s, the source's 0.514444. -/
def knotsToMps : ℚ := 514444 / 1000000

/-- parseMission: expands a JSON item forest into mission_plan tasks,
threading the rolling speed (updated by Platform items). -/
def parseMission : PForest → ℚ → List Task
  | .nil, _ => []
  | .cons ty sp lb la lo wps ch rest, speed =>
    let speed1 := if ty == "Platform" then sp * knotsToMps else speed
    let here : List Task :=
      if ty == "SurveyPattern" then
        [.missionPlan lb speed1 true (forestItems ch) (some 0) none none]
      else if ty == "TrackLine" then
        [.missionPlan lb speed1 true [⟨ty, sp, lb, la, lo, wps, ch⟩] (some 0) none none]
      else if ty == "SurveyArea" then
        if allWaypointChildren ch then
          [.missionPlan lb speed1 true [⟨ty, sp, lb, la, lo, wps, ch⟩] (some 0) none none]
        else parseMission ch speed1
      else if ty == "Group" then parseMission ch speed1
      else []
    here ++ parseMission rest speed1

/-- parseLatLong: splits a string into exactly two floats. -/
def parseLatLong (args : String) : Option (ℚ × ℚ) :=
  match pySplitAll args with
  | [a, b] =>
    match pyFloat a, pyFloat b with
    | some la, some lo => some (la, lo)
    | _, _ => none
  | _ => none

/-- clearTasks: empties the list and clears current and saved. -/
def clearTasks (c : Core) : Core :=
  { c with tasks := [], current_task := none, saved_task := none }

/-- setOverride: installs the override task and posts do_override. -/
def setOverride (c : Core) (t : Task) : Core :=
  { c with override_task := some t, pending_command := some "do_override" }

/-- addTask: parses a taskspec and appends (or prepends) the parsed
tasks.  The prepend branch reads the nonexistent attribute self.task
and raises AttributeError (returned as `none`) whenever it is reached
with something to add.  The goto/hover branches pass the whole
taskspec (type word included) to parseLatLong, exactly as the source
does. -/
def addTask (c : Core) (e : Env) (args : Option String) (prepend : Bool) : Option Core :=
  match args with
  | none => none
  | some a =>
    match pySplit1 a with
    | [task_type, payload] =>
      let task : Option Task :=
        if task_type == "goto" then (parseLatLong a).map fun p => Task.goto p.1 p.2
        else if task_type == "hover" then (parseLatLong a).map fun p => Task.hover p.1 p.2
        else none
      let task_listE : Option (List Task) :=
        if task_type == "mission_plan" then
          (e.jsonParse payload).map fun f => parseMission f c.default_speed
        else some (match task with | some t => [t] | none => [])
      match task_listE with
      | none => none
      | some task_list =>
        if task.isSome || !task_list.isEmpty then
          if prepend then none
          else some { c with tasks := c.tasks ++ task_list }
        else some c
    | _ => some c

/-- commandCallback: dispatches one command string. -/
def commandCallback (c : Core) (e : Env) (msgData : String) : Option Core :=
  match pySplit1 msgData with
  | [] => none
  | cmd :: restParts =>
    let args : Option String := restParts.head?
    if cmd == "replace_task" then
      (addTask (clearTasks c) e args false).map fun c1 =>
        { c1 with pending_command := some "next_task" }
    else if cmd == "append_task" then addTask c e args false
    else if cmd == "prepend_task" then addTask c e args true
    else if cmd == "clear_tasks" then some (clearTasks c)
    else if cmd == "next_task" || cmd == "prev_task" || cmd == "goto_task"
        || cmd == "goto_line" || cmd == "start_line" || cmd == "restart_mission" then
      some { c with pending_command := some msgData }
    else if cmd == "override" then
      match args with
      | none => none
      | some a =>
        match pySplit1 a with
        | [task_type, payload] =>
          let task : Option Task :=
            if task_type == "goto" then (parseLatLong payload).map fun p => Task.goto p.1 p.2
            else if task_type == "hover" then (parseLatLong payload).map fun p => Task.hover p.1 p.2
            else none
          match task with
          | some t => some (setOverride c t)
          | none => some c
        | _ => some c
    else some c

/-- Replaces the i-th element of a list. -/
def modifyAt : List α → ℕ → (α → α) → List α
  | [], _, _ => []
  | a :: r, 0, f => f a :: r
  | a :: r, n + 1, f => a :: modifyAt r n f

/-- task['current_path'] = None on a mission plan. -/
def Task.clearCurrentPath : Task → Task
  | .missionPlan l s dt navs idx _ tp => .missionPlan l s dt navs idx none tp
  | t => t

/-- current_nav_objective_index = None and current_path = None on a
mission plan (the restart_mission loop body and the post-step reset). -/
def Task.resetPlan : Task → Task
  | .missionPlan l s dt navs _ _ tp => .missionPlan l s dt navs none none tp
  | t => t

/-- Dereferences a task reference. -/
def Core.resolve (c : Core) (r : TaskRef) : Option Task :=
  match r with
  | .inList i => c.tasks.get? i
  | .det t => some t

/-- Mutates the object behind a reference held in current_task. -/
def Core.writeRef (c : Core) (r : TaskRef) (f : Task → Task) : Core :=
  match r with
  | .inList i => { c with tasks := modifyAt c.tasks i f }
  | .det t => { c with current_task := some (.det (f t)) }

/-- nextTask, pending == 'do_override' branch: clear the current
mission plan's path, snapshot saved_task, consume the command. -/
def doOverrideBranch (c : Core) : Option Core :=
  match c.current_task with
  | none => some { c with saved_task := none, pending_command := none }
  | some r =>
    match c.resolve r with
    | none => none
    | some t =>
      let c1 := if t.isPlan then c.writeRef r Task.clearCurrentPath else c
      some { c1 with saved_task := c1.current_task, pending_command := none }

/-- nextTask, override-dismissal phase: restore current from saved,
drop the override; early return consuming a pending next_task.  The
Bool is true when the early return was taken. -/
def overridePhase (c : Core) : Core × Bool :=
  if c.override_task.isSome then
    let cur1 : Option TaskRef :=
      match c.saved_task with
      | some r => some r
      | none => if c.tasks.length ≠ 0 then some (.inList 0) else none
    let c1 := { c with current_task := cur1, override_task := none }
    if c1.pending_command = some "next_task" then
      ({ c1 with pending_command := none }, true)
    else (c1, false)
  else (c, false)

/-- nextTask, restart_mission phase: reset index and current_path on
every mission plan and point current at tasks[0]. -/
def restartPhase (c : Core) : Core :=
  if c.pending_command = some "restart_mission" then
    if c.tasks.isEmpty then c
    else { c with tasks := c.tasks.map Task.resetPlan, current_task := some (.inList 0) }
  else c

/-- The next_task/prev_task list step: locate the current task by
content (Python list.index), move one step; `some none` is falling off
an end (or the caught ValueError), outer `none` an invalid reference. -/
def stepCurrent (c : Core) : Option (Option TaskRef) :=
  match c.current_task with
  | none =>
    some (if c.pending_command = some "next_task" then some (.inList 0)
          else some (.inList (c.tasks.length - 1)))
  | some r =>
    match c.resolve r with
    | none => none
    | some v =>
      match c.tasks.findIdx? (fun t => t == v) with
      | none => some none
      | some i =>
        if c.pending_command = some "next_task" then
          some (if i + 1 ≥ c.tasks.length then none else some (.inList (i + 1)))
        else
          some (if i = 0 then none else some (.inList (i - 1)))

/-- Falling off the list consults done_behavior: restart wraps to
tasks[0], hover synthesizes a detached hover at the vehicle position,
anything else leaves current absent. -/
def doneBehaviorRef (c : Core) (e : Env) (cur1 : Option TaskRef) : Option TaskRef :=
  match cur1 with
  | some r => some r
  | none =>
    if c.done_behavior == "restart" then some (.inList 0)
    else if c.done_behavior == "hover" then
      some (.det (Task.hover e.vehicleLat e.vehicleLon))
    else none

/-- The post-step reset: a current mission plan has its index and
current_path cleared through the reference. -/
def applyPlanReset (c : Core) : Option Core :=
  match c.current_task with
  | none => some c
  | some r =>
    match c.resolve r with
    | none => none
    | some v => some (if v.isPlan then c.writeRef r Task.resetPlan else c)

/-- nextTask, next_task/prev_task phase: step the current task through
the list by content lookup; falling off either end consults
done_behavior; a mission plan that becomes current has its index and
current_path reset. -/
def nextPrevPhase (c : Core) (e : Env) : Option Core :=
  if c.pending_command = some "next_task" ∨ c.pending_command = some "prev_task" then
    if c.tasks.isEmpty then some c
    else
      match stepCurrent c with
      | none => none
      | some cur1 => applyPlanReset { c with current_task := doneBehaviorRef c e cur1 }
  else some c

/-- nextTask, goto_line/start_line phase: parse the line number and,
when it is in range for the current mission plan, install it,
invalidate current_path and set do_transit.  int() on a non-numeric
argument raises (none). -/
def gotoLinePhase (c : Core) : Option Core :=
  match c.current_task with
  | none => some c
  | some r =>
    match c.resolve r with
    | none => none
    | some v =>
      if v.isPlan then
        match c.pending_command with
        | none => some c
        | some p =>
          if pyStartsWith p "goto_line" || pyStartsWith p "start_line" then
            match pySplit1 (pyStrip p) with
            | [cmd, arg] =>
              match pyInt arg with
              | none => none
              | some lineNo =>
                match v with
                | .missionPlan _ _ _ navs _ _ _ =>
                  if 0 ≤ lineNo ∧ lineNo < (navs.length : ℤ) then
                    let upd : Task → Task := fun t =>
                      match t with
                      | .missionPlan l2 s2 dt2 navs2 _ _ tp2 =>
                        .missionPlan l2 s2
                          (if cmd == "goto_line" then false
                           else if cmd == "start_line" then true else dt2)
                          navs2 (some lineNo) none tp2
                      | t => t
                    some (c.writeRef r upd)
                  else some c
                | _ => some c
            | _ => some c
          else some c
      else some c

/-- MissionManagerCore.nextTask. -/
def nextTask (c : Core) (e : Env) : Option Core :=
  if c.pending_command = some "do_override" then doOverrideBranch c
  else
    match overridePhase c with
    | (c1, true) => some c1
    | (c1, false) =>
      match nextPrevPhase (restartPhase c1) e with
      | none => none
      | some c3 =>
        match gotoLinePhase c3 with
        | none => none
        | some c4 => some { c4 with pending_command := none }

/-- getCurrentTask: override if present, else current. -/
def Core.getCurrentVal (c : Core) : Option Task :=
  match c.override_task with
  | some t => some t
  | none => c.current_task.bind fun r => c.resolve r

/-- Python list indexing, negative indices wrapping from the end. -/
def pyGet (l : List α) (i : ℤ) : Option α :=
  if 0 ≤ i then l.get? i.toNat
  else if -(l.length : ℤ) ≤ i then l.get? (l.length - (-i).toNat) else none

/-- The MissionPlan state's work on the current plan: returns the
updated task, whether pending next_task is posted, and the outcome. -/
def MissionPlan.executeTask (t : Task) (e : Env) (thresh : ℚ) (planner : String) :
    Option (Task × Bool × String) :=
  match t with
  | .missionPlan l s dt navs idx cp tp =>
    let i0 : ℤ := idx.getD 0
    if i0 ≥ (navs.length : ℤ) then
      some (.missionPlan l s dt navs none cp tp, true, "done")
    else
      match pyGet navs i0 with
      | none => none
      | some obj =>
        if obj.ty == "SurveyArea" then
          some (.missionPlan l s dt navs (some i0) cp tp, false, "survey_area")
        else
          match cp with
          | some _ => some (.missionPlan l s dt navs (some i0) cp tp, false, "follow_path")
          | none =>
            let path := obj.waypoints
            match path with
            | p1 :: p2 :: _ =>
              let tp1 :=
                if dt && decide (e.distTo p1.1 p1.2 > thresh) && (planner == "path_follower")
                then some (e.lineupPath p1.1 p1.2 p2.1 p2.2 ++ [p1]) else none
              some (.missionPlan l s true navs (some i0) (some path) tp1, false, "follow_path")
            | _ => some (.missionPlan l s dt navs (some i0) (some path) none, false, "follow_path")
  | _ => none

/-- MissionPlan.execute: drives the current task (read directly, not
through getCurrentTask) and yields the smach outcome. -/
def MissionPlan.execute (c : Core) (e : Env) : Option (Core × String) :=
  match c.current_task with
  | none => some (c, "done")
  | some r =>
    match c.resolve r with
    | none => none
    | some t =>
      match MissionPlan.executeTask t e c.waypointThreshold c.planner with
      | none => none
      | some (t1, setPending, out) =>
        let c1 := c.writeRef r fun _ => t1
        some (if setPending then { c1 with pending_command := some "next_task" } else c1, out)

/-- LineEnded's work on a mission plan: finish the transit path, or
finish the track (clear current_path, advance the index).  Advancing
a None index raises (none). -/
def lineAdvance (t : Task) : Option Task :=
  match t with
  | .missionPlan l s dt navs idx cp tp =>
    match tp with
    | some _ => some (.missionPlan l s dt navs idx cp none)
    | none =>
      match idx with
      | none => none
      | some i => some (.missionPlan l s dt navs (some (i + 1)) none tp)
  | _ => none

/-- LineEnded.execute: works on getCurrentTask (override first). -/
def LineEnded.execute (c : Core) : Option (Core × String) :=
  match c.override_task with
  | some t =>
    if t.isPlan then
      match lineAdvance t with
      | none => none
      | some t1 => some ({ c with override_task := some t1 }, "mission_plan")
    else some ({ c with pending_command := some "next_task" }, "next_item")
  | none =>
    match c.current_task with
    | none => some ({ c with pending_command := some "next_task" }, "next_item")
    | some r =>
      match c.resolve r with
      | none => none
      | some t =>
        if t.isPlan then
          match lineAdvance t with
          | none => none
          | some t1 => some (c.writeRef r fun _ => t1, "mission_plan")
        else some ({ c with pending_command := some "next_task" }, "next_item")

/-- The per-task index bound: a mission plan's index, when present, is
between 0 and the number of nav objectives inclusive. -/
def TaskInvB (t : Task) : Bool :=
  match t with
  | .missionPlan _ _ _ navs idx _ _ =>
    match idx with
    | none => true
    | some i => decide (0 ≤ i) && decide (i ≤ (navs.length : ℤ))
  | _ => true

/-- TaskInvB on the task behind a detached reference (vacuous for
list references and absent references). -/
def detInvB : Option TaskRef → Bool
  | some (.det t) => TaskInvB t
  | _ => true

/-- TaskInvB on an optional task slot. -/
def ovrInvB : Option Task → Bool
  | some t => TaskInvB t
  | none => true

/-- The index bound over a whole core state: every task in the list,
every detached task held by current or saved, and the override. -/
def CoreInvB (c : Core) : Bool :=
  c.tasks.all TaskInvB && detInvB c.current_task && detInvB c.saved_task
    && ovrInvB c.override_task

/-- The claim's strict form of the bound: index absent or strictly
below the nav-objective count (and nonnegative). -/
def TaskStrictB (t : Task) : Bool :=
  match t with
  | .missionPlan _ _ _ navs idx _ _ =>
    match idx with
    | none => true
    | some i => decide (0 ≤ i) && decide (i < (navs.length : ℤ))
  | _ => true

/-- Valid current reference: if current_task points into the list, the
index is in range.  Always true of states the program can reach. -/
def Core.curOKB (c : Core) : Bool :=
  match c.current_task with
  | some (.inList i) => decide (i < c.tasks.length)
  | _ => true

/-- No detached mission plan behind current_task.  The program only
ever detaches synthesized hovers, so this holds of reachable states. -/
def Core.curNotDetPlanB (c : Core) : Bool :=
  match c.current_task with
  | some (.det t) => !t.isPlan
  | _ => true

/-- The task LineEnded will mutate, when it is a mission plan in the
track branch, has an in-range index.  Guaranteed on entry to LineEnded
because FollowPath is only entered for a plan after MissionPlan.execute
checked the index. -/
def lineEndedPreB (c : Core) : Bool :=
  match c.getCurrentVal with
  | some (.missionPlan _ _ _ navs idx _ tp) =>
    match tp with
    | some _ => true
    | none =>
      match idx with
      | none => false
      | some i => decide (i < (navs.length : ℤ))
  | _ => true

/-- The index field of a mission plan (none on other tasks). -/
def Task.idxOf : Task → Option ℤ
  | .missionPlan _ _ _ _ idx _ _ => idx
  | _ => none

/-- The current_path field of a mission plan (none on other tasks). -/
def Task.curPathOf : Task → Option (List (ℚ × ℚ))
  | .missionPlan _ _ _ _ _ cp _ => cp
  | _ => none

/-- The transit_path field of a mission plan (none on other tasks). -/
def Task.transitPathOf : Task → Option (List (ℚ × ℚ))
  | .missionPlan _ _ _ _ _ _ tp => tp
  | _ => none

/-! Helper lemmas. -/

/-- Two strings with different first characters differ. -/
theorem str_ne_of_headD (a b : String) (h : a.data.headD ' ' ≠ b.data.headD ' ') : a ≠ b :=
  fun hh => h (by rw [hh])

/-- doOverrideBranch always clears pending when it returns. -/
theorem doOverrideBranch_pending (c c1 : Core) (h : doOverrideBranch c = some c1) :
    c1.pending_command = none := by
  unfold doOverrideBranch at h
  split at h
  · exact (Option.some.inj h) ▸ rfl
  · split at h
    · exact absurd h (by simp)
    · exact (Option.some.inj h) ▸ rfl

/-- overridePhase clears pending whenever it takes the early return. -/
theorem overridePhase_pending (c c1 : Core) (h : overridePhase c = (c1, true)) :
    c1.pending_command = none := by
  unfold overridePhase at h
  split at h
  · dsimp only at h
    split at h
    · injection h with h1 h2
      exact h1 ▸ rfl
    · injection h with h1 h2
      cases h2
  · injection h with h1 h2
    cases h2

/-! C5. -/

/-- C5: for every core state, whenever nextTask() returns (the int()
call in the goto_line branch can raise on non-numeric arguments, in
which case nextTask does not return), pending_command is None
afterwards. -/
theorem c5_nextTask_consumes_pending (c : Core) (e : Env) (c1 : Core)
    (h : nextTask c e = some c1) : c1.pending_command = none := by
  unfold nextTask at h
  by_cases hp : c.pending_command = some "do_override"
  · rw [if_pos hp] at h
    exact doOverrideBranch_pending c c1 h
  · rw [if_neg hp] at h
    rcases ho : overridePhase c with ⟨c2, b⟩
    rw [ho] at h
    cases b
    · dsimp only at h
      rcases hn : nextPrevPhase (restartPhase c2) e with _ | c3
      · rw [hn] at h
        cases h
      · rw [hn] at h
        dsimp only at h
        rcases hg : gotoLinePhase c3 with _ | c4
        · rw [hg] at h
          cases h
        · rw [hg] at h
          obtain rfl := Option.some.inj h
          rfl
    · rw [← Option.some.inj h]
      exact overridePhase_pending c c2 ho

/-- C5 witness at a concrete state. -/
theorem c5_witness :
    nextTask ⟨[], none, none, none, some "next_task", "hover", 1, 10, "path_follower"⟩
        ⟨0, 0, fun _ _ => 1, fun _ _ _ _ => [], fun _ => none⟩ =
      some ⟨[], none, none, none, none, "hover", 1, 10, "path_follower"⟩ ∧
    (⟨[], none, none, none, none, "hover", 1, 10, "path_follower"⟩ : Core).pending_command = none :=
  ⟨by decide,
   c5_nextTask_consumes_pending
     ⟨[], none, none, none, some "next_task", "hover", 1, 10, "path_follower"⟩
     ⟨0, 0, fun _ _ => 1, fun _ _ _ _ => [], fun _ => none⟩
     ⟨[], none, none, none, none, "hover", 1, 10, "path_follower"⟩ (by decide)⟩

/-! C9. -/

/-- C9: clearTasks empties the tasks list and clears current_task and
saved_task while leaving override_task and pending_command (and all
configuration) unchanged; the clear_tasks command triggers exactly it. -/
theorem c9_clearTasks_frame (c : Core) :
    (clearTasks c).tasks = [] ∧
    (clearTasks c).current_task = none ∧
    (clearTasks c).saved_task = none ∧
    (clearTasks c).override_task = c.override_task ∧
    (clearTasks c).pending_command = c.pending_command ∧
    (∀ e : Env, commandCallback c e "clear_tasks" = some (clearTasks c)) :=
  ⟨rfl, rfl, rfl, rfl, rfl, fun _ => rfl⟩

/-! C2. -/

/-- C2 (code bug): handling 'append_task goto 43.0 -70.0' appends
nothing: addTask hands the whole taskspec (with the leading word
'goto') to parseLatLong, which rejects it for having three tokens, so
the command leaves the state unchanged instead of appending a goto
task. -/
theorem c2_append_goto_adds_nothing (c : Core) (e : Env) :
    commandCallback c e "append_task goto 43.0 -70.0" = some c ∧
    addTask c e (some "goto 43.0 -70.0") false = some c ∧
    parseLatLong "goto 43.0 -70.0" = none :=
  ⟨rfl, rfl, by decide⟩

/-! C8. -/

/-- The JSON forest for a single TrackLine item, as the abstract json
decoder returns it for the string used in `c8_prepend_raises`. -/
def tlForest : PForest := .cons "TrackLine" 0 "L1" 0 0 [(1, 2), (3, 4)] .nil .nil

/-- An environment whose json decoder recognizes one mission string. -/
def envC8 : Env :=
  ⟨0, 0, fun _ _ => 1, fun _ _ _ _ => [],
   fun s => if s == "[tracklineJson]" then some tlForest else none⟩

/-- C8 (code bug): prepend_task never prepends.  The prepend branch of
addTask reads the nonexistent attribute self.task and raises
AttributeError whenever the taskspec parsed to at least one task;
the same taskspec appends fine. -/
theorem c8_prepend_raises (c : Core) :
    commandCallback c envC8 "prepend_task mission_plan [tracklineJson]" = none ∧
    addTask c envC8 (some "mission_plan [tracklineJson]") true = none ∧
    addTask c envC8 (some "mission_plan [tracklineJson]") false =
      some { c with tasks := c.tasks ++ parseMission tlForest c.default_speed } ∧
    parseMission tlForest 1 ≠ [] :=
  ⟨rfl, rfl, rfl, by decide⟩

/-! Phase-skip lemmas used by the nextTask frame theorems. -/

/-- overridePhase does nothing when no override is installed. -/
theorem overridePhase_skip (c : Core) (hov : c.override_task = none) :
    overridePhase c = (c, false) := by
  unfold overridePhase
  rw [hov]
  rfl

/-- restartPhase does nothing unless restart_mission is pending. -/
theorem restartPhase_skip (c : Core) (p : String) (hp : c.pending_command = some p)
    (hne : p ≠ "restart_mission") : restartPhase c = c := by
  unfold restartPhase
  rw [hp, if_neg fun hx => hne (Option.some.inj hx)]

/-- nextPrevPhase does nothing unless next_task or prev_task is pending. -/
theorem nextPrevPhase_skip (c : Core) (e : Env) (p : String)
    (hp : c.pending_command = some p)
    (h1 : p ≠ "next_task") (h2 : p ≠ "prev_task") : nextPrevPhase c e = some c := by
  unfold nextPrevPhase
  rw [hp, if_neg]
  rintro (hx | hx)
  · exact h1 (Option.some.inj hx)
  · exact h2 (Option.some.inj hx)

/-- gotoLinePhase does nothing when the pending command starts with
neither goto_line nor start_line, as long as the current reference is
valid. -/
theorem gotoLinePhase_skip (c : Core) (p : String) (hp : c.pending_command = some p)
    (hs1 : pyStartsWith p "goto_line" = false) (hs2 : pyStartsWith p "start_line" = false)
    (hok : c.curOKB = true) : gotoLinePhase c = some c := by
  unfold gotoLinePhase
  cases hc : c.current_task with
  | none => rfl
  | some r =>
    cases r with
    | det t =>
      show (if t.isPlan then _ else some c) = some c
      cases hpl : t.isPlan
      · rw [if_neg (by simp [hpl])]
      · rw [if_pos (by simp [hpl])]
        rw [hp]
        show (if pyStartsWith p "goto_line" || pyStartsWith p "start_line" then _ else some c) = some c
        rw [hs1, hs2]
        rfl
    | inList i =>
      have hi : i < c.tasks.length := by
        unfold Core.curOKB at hok
        rw [hc] at hok
        exact of_decide_eq_true hok
      rcases hg : c.tasks.get? i with _ | t
      · exact absurd (List.get?_eq_none.mp hg) (by omega)
      · show (match c.tasks.get? i with
          | none => none
          | some v => if v.isPlan then _ else some c) = some c
        rw [hg]
        show (if t.isPlan then _ else some c) = some c
        cases hpl : t.isPlan
        · rw [if_neg (by simp [hpl])]
        · rw [if_pos (by simp [hpl])]
          rw [hp]
          show (if pyStartsWith p "goto_line" || pyStartsWith p "start_line" then _ else some c) = some c
          rw [hs1, hs2]
          rfl

/-- goto_task messages differ from the fixed command words (first
character check, definitional on the concrete prefix). -/
theorem goto_task_ne_do_override (arg : String) : "goto_task " ++ arg ≠ "do_override" :=
  fun hh => absurd (show ('g' : Char) = 'd' from
    congrArg (fun s => s.data.headD ' ') hh) (by decide)

/-- goto_task messages are not restart_mission. -/
theorem goto_task_ne_restart (arg : String) : "goto_task " ++ arg ≠ "restart_mission" :=
  fun hh => absurd (show ('g' : Char) = 'r' from
    congrArg (fun s => s.data.headD ' ') hh) (by decide)

/-- goto_task messages are not next_task. -/
theorem goto_task_ne_next (arg : String) : "goto_task " ++ arg ≠ "next_task" :=
  fun hh => absurd (show ('g' : Char) = 'n' from
    congrArg (fun s => s.data.headD ' ') hh) (by decide)

/-- goto_task messages are not prev_task. -/
theorem goto_task_ne_prev (arg : String) : "goto_task " ++ arg ≠ "prev_task" :=
  fun hh => absurd (show ('g' : Char) = 'p' from
    congrArg (fun s => s.data.headD ' ') hh) (by decide)

/-! C10. -/

/-- pySplit1 on a message starting with the nine concrete characters
of goto_task and a space. -/
theorem pySplit1_goto_task (arg : String) :
    pySplit1 ("goto_task " ++ arg) =
      if (arg.data.dropWhile pySpace).isEmpty then ["goto_task"]
      else ["goto_task", ⟨arg.data.dropWhile pySpace⟩] := by
  show (if (arg.data.dropWhile pySpace).isEmpty then ["goto_task"]
      else ["goto_task", (⟨arg.data.dropWhile pySpace⟩ : String)]) = _
  rfl

/-- C10: a pending 'goto_task N' command (accepted and stored verbatim
by the command parser) is consumed by nextTask with no other effect:
with no override installed, the post state is the pre state with
pending_command cleared. -/
theorem c10_goto_task_noop (c : Core) (e : Env) (arg : String)
    (hp : c.pending_command = some ("goto_task " ++ arg))
    (hov : c.override_task = none)
    (hok : c.curOKB = true) :
    nextTask c e = some { c with pending_command := none } ∧
    (∀ c0 : Core, commandCallback c0 e ("goto_task " ++ arg) =
      some { c0 with pending_command := some ("goto_task " ++ arg) }) := by
  constructor
  · unfold nextTask
    rw [if_neg (by rw [hp]; exact fun hx =>
      goto_task_ne_do_override arg (Option.some.inj hx))]
    rw [overridePhase_skip c hov]
    dsimp only
    rw [restartPhase_skip c _ hp (goto_task_ne_restart arg)]
    rw [nextPrevPhase_skip c e _ hp (goto_task_ne_next arg) (goto_task_ne_prev arg)]
    dsimp only
    rw [gotoLinePhase_skip c _ hp rfl rfl hok]
  · intro c0
    unfold commandCallback
    rw [pySplit1_goto_task]
    by_cases h2 : (arg.data.dropWhile pySpace).isEmpty
    · rw [if_pos h2]
      rfl
    · rw [if_neg h2]
      rfl

/-- C10 witness at a concrete state. -/
theorem c10_witness :
    nextTask ⟨[Task.goto 1 2], some (.inList 0), none, none, some ("goto_task " ++ "3"),
        "hover", 1, 10, "path_follower"⟩
      ⟨0, 0, fun _ _ => 1, fun _ _ _ _ => [], fun _ => none⟩ =
      some { (⟨[Task.goto 1 2], some (.inList 0), none, none, some ("goto_task " ++ "3"),
        "hover", 1, 10, "path_follower"⟩ : Core) with pending_command := none } :=
  (c10_goto_task_noop
    ⟨[Task.goto 1 2], some (.inList 0), none, none, some ("goto_task " ++ "3"),
      "hover", 1, 10, "path_follower"⟩
    ⟨0, 0, fun _ _ => 1, fun _ _ _ _ => [], fun _ => none⟩
    "3" rfl rfl (by decide)).1

/-! C1. -/

/-- C1: nextTask with pending do_override snapshots saved_task from
current_task (possibly None), clears pending, leaves the override
installed and the current-task reference in place; when the current
task is a mission plan its current_path is cleared in place (so the
corresponding tasks-list element changes in exactly that field);
otherwise the tasks list is untouched. -/
theorem c1_do_override_snapshot (c : Core) (e : Env)
    (hp : c.pending_command = some "do_override")
    (hok : c.curOKB = true)
    (hdet : c.curNotDetPlanB = true) :
    ∃ c1, nextTask c e = some c1 ∧
      c1.saved_task = c.current_task ∧
      c1.pending_command = none ∧
      c1.override_task = c.override_task ∧
      c1.current_task = c.current_task ∧
      (∀ i t, c.current_task = some (.inList i) → c.tasks.get? i = some t →
        t.isPlan = true → c1.tasks = modifyAt c.tasks i Task.clearCurrentPath) ∧
      ((∀ i t, c.current_task = some (.inList i) → c.tasks.get? i = some t →
          t.isPlan = false) → c1.tasks = c.tasks) := by
  unfold nextTask
  rw [if_pos hp]
  unfold doOverrideBranch
  cases hc : c.current_task with
  | none =>
    exact ⟨_, rfl, rfl, rfl, rfl, rfl,
      fun i t hup => Option.noConfusion hup,
      fun _ => rfl⟩
  | some r =>
    cases r with
    | det t =>
      have hpl : t.isPlan = false := by
        unfold Core.curNotDetPlanB at hdet
        rw [hc] at hdet
        simpa using hdet
      dsimp only [Core.resolve]
      have hif : (if t.isPlan = true then c.writeRef (.det t) Task.clearCurrentPath else c)
          = c := if_neg (by simp [hpl])
      rw [hif]
      exact ⟨_, rfl, hc, rfl, rfl, hc,
        fun i t2 hup => by injection hup with h2; exact TaskRef.noConfusion h2,
        fun _ => rfl⟩
    | inList i =>
      have hi : i < c.tasks.length := by
        unfold Core.curOKB at hok
        rw [hc] at hok
        exact of_decide_eq_true hok
      dsimp only [Core.resolve]
      rcases hg : c.tasks.get? i with _ | t
      · exact absurd (List.get?_eq_none.mp hg) (by omega)
      · dsimp only
        rcases Bool.eq_false_or_eq_true t.isPlan with hpl | hpl
        · have hif : (if t.isPlan = true then c.writeRef (.inList i) Task.clearCurrentPath else c)
              = c.writeRef (.inList i) Task.clearCurrentPath := if_pos hpl
          rw [hif]
          dsimp only [Core.writeRef]
          refine ⟨_, rfl, hc, rfl, rfl, hc, ?_, ?_⟩
          · intro i2 t2 hup hg2 hpl2
            obtain rfl : i = i2 := by
              injection hup with h2
              injection h2
            rfl
          · intro hall
            have hfalse := hall i t rfl hg
            rw [hpl] at hfalse
            cases hfalse
        · have hif : (if t.isPlan = true then c.writeRef (.inList i) Task.clearCurrentPath else c)
              = c := if_neg (by simp [hpl])
          rw [hif]
          refine ⟨_, rfl, hc, rfl, rfl, hc, ?_, fun _ => rfl⟩
          intro i2 t2 hup hg2 hpl2
          obtain rfl : i = i2 := by
            injection hup with h2
            injection h2
          rw [hg] at hg2
          obtain rfl := Option.some.inj hg2
          rw [hpl] at hpl2
          cases hpl2

/-- C1 witness: concrete override snapshot over a mission plan. -/
theorem c1_witness :
    ∃ c1, nextTask ⟨[Task.missionPlan "P" 3 true [] (some 0) (some [(1, 2)]) none],
        some (.inList 0), some (.hover 1 2), none, some "do_override",
        "hover", 5, 10, "path_follower"⟩
        ⟨0, 0, fun _ _ => 1, fun _ _ _ _ => [], fun _ => none⟩ = some c1 ∧
      c1.saved_task = some (.inList 0) ∧
      c1.pending_command = none ∧
      c1.override_task = some (.hover 1 2) ∧
      c1.current_task = some (.inList 0) ∧
      c1.tasks = [Task.missionPlan "P" 3 true [] (some 0) none none] := by
  obtain ⟨c1, h1, h2, h3, h4, h5, h6, h7⟩ :=
    c1_do_override_snapshot
      ⟨[Task.missionPlan "P" 3 true [] (some 0) (some [(1, 2)]) none],
        some (.inList 0), some (.hover 1 2), none, some "do_override",
        "hover", 5, 10, "path_follower"⟩
      ⟨0, 0, fun _ _ => 1, fun _ _ _ _ => [], fun _ => none⟩
      rfl (by decide) (by decide)
  exact ⟨c1, h1, h2, h3, h4, h5, by rw [h6 0 _ rfl rfl rfl]; rfl⟩

/-! C6. -/

/-- When no next_task is pending, overridePhase never takes the early
return; it only repoints current_task and drops the override. -/
theorem overridePhase_no_next (c : Core) (hp2 : c.pending_command ≠ some "next_task") :
    ∃ cur, overridePhase c = ({ c with current_task := cur, override_task := none }, false) := by
  unfold overridePhase
  by_cases hov : c.override_task.isSome
  · rw [if_pos hov]
    dsimp only
    rw [if_neg hp2]
    exact ⟨_, rfl⟩
  · rw [if_neg hov]
    refine ⟨c.current_task, ?_⟩
    have hnone : c.override_task = none := by
      cases hoo : c.override_task
      · rfl
      · rw [hoo] at hov
        exact absurd rfl hov
    rw [show ({ c with current_task := c.current_task, override_task := none } : Core) = c from
      by rw [← hnone]]

/-- restartPhase with restart_mission pending and a nonempty list. -/
theorem restartPhase_fire (c : Core) (hp : c.pending_command = some "restart_mission")
    (ht : c.tasks ≠ []) :
    restartPhase c =
      { c with tasks := c.tasks.map Task.resetPlan, current_task := some (.inList 0) } := by
  unfold restartPhase
  rw [if_pos hp, if_neg (by simpa using ht)]

/-- resetPlan leaves transit_path alone. -/
theorem transitPathOf_resetPlan (t : Task) :
    (Task.resetPlan t).transitPathOf = t.transitPathOf := by
  cases t <;> rfl

/-- C6 (amended): nextTask with pending restart_mission and nonempty
tasks resets current_nav_objective_index and current_path on every
mission plan, points current_task at tasks[0] and consumes the
command; transit_path is NOT cleared (the loop only assigns the index
and current_path), as witnessed by the unchanged transit projection. -/
theorem c6_restart_mission (c : Core) (e : Env)
    (hp : c.pending_command = some "restart_mission")
    (ht : c.tasks ≠ []) :
    ∃ c1, nextTask c e = some c1 ∧
      c1.tasks = c.tasks.map Task.resetPlan ∧
      c1.current_task = some (.inList 0) ∧
      c1.pending_command = none ∧
      (∀ t ∈ c1.tasks, t.isPlan = true → t.idxOf = none ∧ t.curPathOf = none) ∧
      c1.tasks.map Task.transitPathOf = c.tasks.map Task.transitPathOf := by
  obtain ⟨cur, ho⟩ := overridePhase_no_next c
    (by rw [hp]; intro hx; exact absurd (Option.some.inj hx) (by decide))
  have hlen : 0 < c.tasks.length := List.length_pos.mpr ht
  unfold nextTask
  rw [if_neg (by rw [hp]; intro hx; exact absurd (Option.some.inj hx) (by decide))]
  rw [ho]
  dsimp only
  rw [restartPhase_fire { c with current_task := cur, override_task := none } hp ht]
  rw [nextPrevPhase_skip
    { c with
      tasks := c.tasks.map Task.resetPlan
      current_task := some (.inList 0)
      override_task := none }
    e "restart_mission" hp (by decide) (by decide)]
  dsimp only
  rw [gotoLinePhase_skip
    { c with
      tasks := c.tasks.map Task.resetPlan
      current_task := some (.inList 0)
      override_task := none }
    "restart_mission" hp (by decide) (by decide)
    (by unfold Core.curOKB; dsimp only; simpa using hlen)]
  refine ⟨_, rfl, rfl, rfl, rfl, ?_, ?_⟩
  · intro t htm hpl
    obtain ⟨t0, ht0, rfl⟩ := List.mem_map.mp htm
    cases t0 with
    | goto la lo => exact absurd hpl (by simp [Task.resetPlan, Task.isPlan])
    | hover la lo => exact absurd hpl (by simp [Task.resetPlan, Task.isPlan])
    | missionPlan l s dt navs idx cp tp => exact ⟨rfl, rfl⟩
  · show (c.tasks.map Task.resetPlan).map Task.transitPathOf = _
    rw [List.map_map]
    exact List.map_congr_left fun t _ => transitPathOf_resetPlan t

/-- Shared concrete environment for witnesses and counterexamples. -/
def env0 : Env := ⟨10, 20, fun _ _ => 100, fun _ _ _ _ => [(0, 0)], fun _ => none⟩

/-- A concrete TrackLine nav objective. -/
def obj0 : SItem := ⟨"TrackLine", 0, "A", 0, 0, [(1, 2), (3, 4)], .nil⟩

/-- C6 counterexample to the claim as stated: a mission plan with a
transit path keeps it across restart_mission; the claim says both
paths are cleared to None. -/
theorem c6_cex :
    nextTask ⟨[Task.missionPlan "Q" 4 true [obj0, obj0] (some 1) (some [(5, 5)]) (some [(9, 9)])],
        none, none, none, some "restart_mission", "hover", 5, 10, "path_follower"⟩ env0 =
      some ⟨[Task.missionPlan "Q" 4 true [obj0, obj0] none none (some [(9, 9)])],
        some (.inList 0), none, none, none, "hover", 5, 10, "path_follower"⟩ ∧
    (Task.missionPlan "Q" 4 true [obj0, obj0] none none (some [(9, 9)])).transitPathOf ≠ none := by
  constructor
  · decide
  · decide

/-- C6 witness for the amended theorem at a concrete state. -/
theorem c6_witness :
    ∃ c1, nextTask ⟨[Task.missionPlan "Q" 4 true [obj0, obj0] (some 1) (some [(5, 5)]) (some [(9, 9)])],
        none, none, none, some "restart_mission", "hover", 5, 10, "path_follower"⟩ env0 = some c1 ∧
      c1.tasks = [Task.missionPlan "Q" 4 true [obj0, obj0] (some 1) (some [(5, 5)]) (some [(9, 9)])].map
        Task.resetPlan ∧
      c1.current_task = some (.inList 0) ∧
      c1.pending_command = none ∧
      (∀ t ∈ c1.tasks, t.isPlan = true → t.idxOf = none ∧ t.curPathOf = none) ∧
      c1.tasks.map Task.transitPathOf =
        [Task.missionPlan "Q" 4 true [obj0, obj0] (some 1) (some [(5, 5)]) (some [(9, 9)])].map
          Task.transitPathOf :=
  c6_restart_mission
    ⟨[Task.missionPlan "Q" 4 true [obj0, obj0] (some 1) (some [(5, 5)]) (some [(9, 9)])],
      none, none, none, some "restart_mission", "hover", 5, 10, "path_follower"⟩
    env0 rfl (by decide)

/-! C7. -/

/-- modifyAt preserves length. -/
theorem modifyAt_length (l : List α) (i : ℕ) (f : α → α) :
    (modifyAt l i f).length = l.length := by
  induction l generalizing i with
  | nil => rfl
  | cons a r ih =>
    cases i with
    | zero => rfl
    | succ n => simpa [modifyAt] using ih n

/-- nextPrevPhase with next_task pending and a current task whose
first content-equal occurrence is the last position: the step falls
off the end and done_behavior decides. -/
theorem nextPrevPhase_tail (c : Core) (e : Env) (tval : Task) (rr : TaskRef)
    (hp : c.pending_command = some "next_task")
    (ht : c.tasks ≠ [])
    (hcur : c.current_task = some rr)
    (hres : c.resolve rr = some tval)
    (hfind : c.tasks.findIdx? (fun t => t == tval) = some (c.tasks.length - 1)) :
    (c.done_behavior = "restart" →
      nextPrevPhase c e = some { c with
        tasks := modifyAt c.tasks 0 Task.resetPlan
        current_task := some (.inList 0) }) ∧
    (c.done_behavior = "hover" →
      nextPrevPhase c e = some { c with
        current_task := some (.det (Task.hover e.vehicleLat e.vehicleLon)) }) := by
  have hlen : 0 < c.tasks.length := List.length_pos.mpr ht
  have hstep : stepCurrent c = some none := by
    unfold stepCurrent
    rw [hcur]
    dsimp only
    rw [hres]
    dsimp only
    rw [hfind]
    dsimp only
    rw [if_pos hp, if_pos (show c.tasks.length - 1 + 1 ≥ c.tasks.length by omega)]
  unfold nextPrevPhase
  rw [if_pos (Or.inl hp), if_neg (by simpa using ht), hstep]
  dsimp only
  constructor
  · intro hdb
    have hdbr : doneBehaviorRef c e none = some (.inList 0) := by
      unfold doneBehaviorRef
      dsimp only
      rw [if_pos (show (c.done_behavior == "restart") = true by rw [hdb]; rfl)]
    rw [hdbr]
    unfold applyPlanReset
    dsimp only [Core.resolve]
    rcases hts : c.tasks with _ | ⟨t0, rest⟩
    · exact absurd hts ht
    · rw [show (t0 :: rest).get? 0 = some t0 from rfl]
      dsimp only
      cases t0 with
      | goto la lo =>
        rw [if_neg (by simp [Task.isPlan])]
        rfl
      | hover la lo =>
        rw [if_neg (by simp [Task.isPlan])]
        rfl
      | missionPlan l s dt navs idx cp tp =>
        rw [if_pos (by simp [Task.isPlan])]
        rfl
  · intro hdb
    have hdbr : doneBehaviorRef c e none =
        some (.det (Task.hover e.vehicleLat e.vehicleLon)) := by
      unfold doneBehaviorRef
      dsimp only
      rw [if_neg (show ¬((c.done_behavior == "restart") = true) by rw [hdb]; decide),
        if_pos (show (c.done_behavior == "hover") = true by rw [hdb]; rfl)]
    rw [hdbr]
    unfold applyPlanReset
    dsimp only [Core.resolve]
    rw [if_neg (by simp [Task.isPlan])]

/-- C7 (amended): with pending next_task, no override installed, a
non-empty list and a current task whose first content-equal occurrence
in the list is the last position, nextTask consults done_behavior:
restart wraps current_task to tasks[0] (resetting it in place if it is
a mission plan), hover installs a detached synthesized hover at the
vehicle position and leaves the tasks list unchanged.  (The
first-occurrence condition is what the code's list.index lookup
actually tests; with duplicate tasks, being equal to the last element
is not enough, see the counterexample.) -/
theorem c7_next_task_at_tail (c : Core) (e : Env) (tval : Task) (rr : TaskRef)
    (hp : c.pending_command = some "next_task")
    (hov : c.override_task = none)
    (ht : c.tasks ≠ [])
    (hcur : c.current_task = some rr)
    (hres : c.resolve rr = some tval)
    (hfind : c.tasks.findIdx? (fun t => t == tval) = some (c.tasks.length - 1)) :
    (c.done_behavior = "restart" →
      nextTask c e = some { c with
        tasks := modifyAt c.tasks 0 Task.resetPlan
        current_task := some (.inList 0)
        pending_command := none }) ∧
    (c.done_behavior = "hover" →
      nextTask c e = some { c with
        current_task := some (.det (Task.hover e.vehicleLat e.vehicleLon))
        pending_command := none }) := by
  have hlen : 0 < c.tasks.length := List.length_pos.mpr ht
  have hstep := nextPrevPhase_tail c e tval rr hp ht hcur hres hfind
  constructor
  · intro hdb
    unfold nextTask
    rw [if_neg (by rw [hp]; intro hx; exact absurd (Option.some.inj hx) (by decide))]
    rw [overridePhase_skip c hov]
    dsimp only
    rw [restartPhase_skip c "next_task" hp (by decide)]
    rw [hstep.1 hdb]
    dsimp only
    rw [gotoLinePhase_skip
      { c with
        tasks := modifyAt c.tasks 0 Task.resetPlan
        current_task := some (.inList 0) }
      "next_task" hp (by decide) (by decide)
      (by
        unfold Core.curOKB
        dsimp only
        have : (modifyAt c.tasks 0 Task.resetPlan).length = c.tasks.length :=
          modifyAt_length c.tasks 0 Task.resetPlan
        simp [this]
        omega)]
  · intro hdb
    unfold nextTask
    rw [if_neg (by rw [hp]; intro hx; exact absurd (Option.some.inj hx) (by decide))]
    rw [overridePhase_skip c hov]
    dsimp only
    rw [restartPhase_skip c "next_task" hp (by decide)]
    rw [hstep.2 hdb]
    dsimp only
    rw [gotoLinePhase_skip
      { c with current_task := some (.det (Task.hover e.vehicleLat e.vehicleLon)) }
      "next_task" hp (by decide) (by decide) (by unfold Core.curOKB; rfl)]

/-- Concrete plans for the C7 witness and counterexample. -/
def planP0 : Task := .missionPlan "P" 3 true [obj0] (some 0) (some [(1, 2)]) none

/-- Second concrete plan (distinct content from planP0). -/
def planQ0 : Task := .missionPlan "Q" 4 true [obj0, obj0] (some 1) none none

/-- C7 counterexample to the claim as stated: with tasks [P, Q, P]
and the current task the final P (content-equal to the last element)
and done_behavior hover, list.index finds the FIRST equal element, so
the step lands on tasks[1] instead of synthesizing a hover at the
vehicle position. -/
theorem c7_cex :
    (⟨[planP0, planQ0, planP0], some (.inList 2), none, none, some "next_task",
        "hover", 5, 10, "path_follower"⟩ : Core).tasks.getLast? = some planP0 ∧
    (⟨[planP0, planQ0, planP0], some (.inList 2), none, none, some "next_task",
        "hover", 5, 10, "path_follower"⟩ : Core).resolve (.inList 2) = some planP0 ∧
    (nextTask ⟨[planP0, planQ0, planP0], some (.inList 2), none, none, some "next_task",
        "hover", 5, 10, "path_follower"⟩ env0).map (fun c1 => c1.current_task) =
      some (some (.inList 1)) ∧
    (some (TaskRef.inList 1) : Option TaskRef) ≠
      some (.det (Task.hover env0.vehicleLat env0.vehicleLon)) := by
  refine ⟨by decide, by decide, by decide, by decide⟩

/-- C7 witness for the amended theorem: hover and restart behaviors at
concrete tail states. -/
theorem c7_witness :
    nextTask ⟨[planP0, planQ0], some (.inList 1), none, none, some "next_task",
        "hover", 5, 10, "path_follower"⟩ env0 =
      some { (⟨[planP0, planQ0], some (.inList 1), none, none, some "next_task",
        "hover", 5, 10, "path_follower"⟩ : Core) with
          current_task := some (.det (Task.hover env0.vehicleLat env0.vehicleLon))
          pending_command := none } ∧
    nextTask ⟨[planP0, planQ0], some (.inList 1), none, none, some "next_task",
        "restart", 5, 10, "path_follower"⟩ env0 =
      some { (⟨[planP0, planQ0], some (.inList 1), none, none, some "next_task",
        "restart", 5, 10, "path_follower"⟩ : Core) with
          tasks := modifyAt [planP0, planQ0] 0 Task.resetPlan
          current_task := some (.inList 0)
          pending_command := none } :=
  ⟨(c7_next_task_at_tail
      ⟨[planP0, planQ0], some (.inList 1), none, none, some "next_task",
        "hover", 5, 10, "path_follower"⟩
      env0 planQ0 (.inList 1) rfl rfl (by decide) rfl (by decide) (by decide)).2 rfl,
   (c7_next_task_at_tail
      ⟨[planP0, planQ0], some (.inList 1), none, none, some "next_task",
        "restart", 5, 10, "path_follower"⟩
      env0 planQ0 (.inList 1) rfl rfl (by decide) rfl (by decide) (by decide)).1 rfl⟩

/-! C3. -/

/-- Every task produced by parseMission is a mission plan with index
0, do_transit true and no paths (shared by the C3 and C4 theorems). -/
theorem parseMission_shape :
    ∀ f s t, t ∈ parseMission f s →
      ∃ label sp navs, t = Task.missionPlan label sp true navs (some 0) none none := by
  intro f
  induction f with
  | nil => intro s t ht; simp [parseMission] at ht
  | cons ty sp lb la lo wps ch rest ihch ihrest =>
    intro s t ht
    simp only [parseMission] at ht
    rcases List.mem_append.mp ht with h | h
    · split_ifs at h <;>
        first
          | (rw [List.mem_singleton] at h; exact ⟨_, _, _, h⟩)
          | exact ihch _ _ h
          | simp at h
    · exact ihrest _ _ h

/-- C3 (amended): every task produced by mission-plan expansion is a
mission_plan with current_nav_objective_index = 0 (not None, as the
claim stated), do_transit = true and no current or transit path; the
displayed recursion equations show the rolling speed: a Platform item
updates it to knots * 0.514444 for everything after it, and each
directly produced plan carries the speed in effect at its item (the
SurveyArea and Group recursions expand children at that same rolling
speed). -/
theorem c3_parseMission_fields :
    (∀ f s t, t ∈ parseMission f s →
      ∃ label sp navs, t = Task.missionPlan label sp true navs (some 0) none none) ∧
    (∀ s : ℚ, parseMission .nil s = []) ∧
    (∀ sp lb la lo wps ch rest (s : ℚ),
      parseMission (.cons "Platform" sp lb la lo wps ch rest) s =
        parseMission rest (sp * knotsToMps)) ∧
    (∀ sp lb la lo wps ch rest (s : ℚ),
      parseMission (.cons "TrackLine" sp lb la lo wps ch rest) s =
        Task.missionPlan lb s true [⟨"TrackLine", sp, lb, la, lo, wps, ch⟩] (some 0) none none ::
          parseMission rest s) ∧
    (∀ sp lb la lo wps ch rest (s : ℚ),
      parseMission (.cons "SurveyPattern" sp lb la lo wps ch rest) s =
        Task.missionPlan lb s true (forestItems ch) (some 0) none none ::
          parseMission rest s) ∧
    (∀ sp lb la lo wps ch rest (s : ℚ), allWaypointChildren ch = true →
      parseMission (.cons "SurveyArea" sp lb la lo wps ch rest) s =
        Task.missionPlan lb s true [⟨"SurveyArea", sp, lb, la, lo, wps, ch⟩] (some 0) none none ::
          parseMission rest s) ∧
    (∀ sp lb la lo wps ch rest (s : ℚ), allWaypointChildren ch = false →
      parseMission (.cons "SurveyArea" sp lb la lo wps ch rest) s =
        parseMission ch s ++ parseMission rest s) ∧
    (∀ sp lb la lo wps ch rest (s : ℚ),
      parseMission (.cons "Group" sp lb la lo wps ch rest) s =
        parseMission ch s ++ parseMission rest s) := by
  refine ⟨parseMission_shape, fun _ => rfl, fun _ _ _ _ _ _ _ _ => rfl,
    fun _ _ _ _ _ _ _ _ => rfl,
    fun _ _ _ _ _ _ _ _ => rfl, ?_, ?_, fun _ _ _ _ _ _ _ _ => rfl⟩
  · intro sp lb la lo wps ch rest s h
    simp [parseMission, h]
  · intro sp lb la lo wps ch rest s h
    simp [parseMission, h]

/-- C3 counterexample to the claim as stated: a produced mission plan
has current_nav_objective_index = 0, not None. -/
theorem c3_cex :
    parseMission (.cons "TrackLine" 0 "L" 0 0 [(1, 2)] .nil .nil) 7 =
      [Task.missionPlan "L" 7 true [⟨"TrackLine", 0, "L", 0, 0, [(1, 2)], .nil⟩]
        (some 0) none none] ∧
    Task.idxOf (Task.missionPlan "L" 7 true [⟨"TrackLine", 0, "L", 0, 0, [(1, 2)], .nil⟩]
      (some 0) none none) ≠ none :=
  ⟨by decide, by decide⟩

/-- C3 witness: the shape clause at a concrete expansion, and the
SurveyArea all-Waypoint equation at a concrete item. -/
theorem c3_witness :
    (∃ label sp navs,
      Task.missionPlan "L" 7 true [⟨"TrackLine", 0, "L", 0, 0, [(1, 2)], .nil⟩]
          (some 0) none none =
        Task.missionPlan label sp true navs (some 0) none none) ∧
    parseMission (.cons "SurveyArea" 0 "S" 0 0 [(1, 2), (3, 4), (5, 6)]
        (.cons "Waypoint" 0 "W" 1 2 [] .nil .nil) .nil) 5 =
      [Task.missionPlan "S" 5 true
        [⟨"SurveyArea", 0, "S", 0, 0, [(1, 2), (3, 4), (5, 6)],
          .cons "Waypoint" 0 "W" 1 2 [] .nil .nil⟩] (some 0) none none] :=
  ⟨c3_parseMission_fields.1 (.cons "TrackLine" 0 "L" 0 0 [(1, 2)] .nil .nil) 7 _ (by decide),
   c3_parseMission_fields.2.2.2.2.2.1 0 "S" 0 0 [(1, 2), (3, 4), (5, 6)]
     (.cons "Waypoint" 0 "W" 1 2 [] .nil .nil) .nil 5 (by decide)⟩

/-! C4: invariant machinery. -/

/-- Decomposing the core invariant. -/
theorem coreInv_parts (c : Core) (hc : CoreInvB c = true) :
    c.tasks.all TaskInvB = true ∧ detInvB c.current_task = true ∧
    detInvB c.saved_task = true ∧ ovrInvB c.override_task = true := by
  simpa [CoreInvB, Bool.and_eq_true, and_assoc] using hc

/-- Rebuilding the core invariant. -/
theorem coreInv_mk (c : Core) (h1 : c.tasks.all TaskInvB = true)
    (h2 : detInvB c.current_task = true) (h3 : detInvB c.saved_task = true)
    (h4 : ovrInvB c.override_task = true) : CoreInvB c = true := by
  simp [CoreInvB, Bool.and_eq_true, h1, h2, h3, h4]

/-- clearCurrentPath keeps the index bound. -/
theorem TaskInvB_clearCurrentPath (t : Task) (h : TaskInvB t = true) :
    TaskInvB t.clearCurrentPath = true := by
  cases t <;> simpa [Task.clearCurrentPath, TaskInvB] using h

/-- resetPlan establishes the index bound outright. -/
theorem TaskInvB_resetPlan (t : Task) : TaskInvB t.resetPlan = true := by
  cases t <;> simp [Task.resetPlan, TaskInvB]

/-- modifyAt with a bound-preserving function keeps list-wide bounds. -/
theorem all_modifyAt (p : α → Bool) (l : List α) (i : ℕ) (f : α → α)
    (hall : l.all p = true) (hf : ∀ x, p x = true → p (f x) = true) :
    (modifyAt l i f).all p = true := by
  induction l generalizing i with
  | nil => rfl
  | cons a r ih =>
    rw [List.all_cons, Bool.and_eq_true] at hall
    cases i with
    | zero =>
      show (f a :: r).all p = true
      rw [List.all_cons, Bool.and_eq_true]
      exact ⟨hf a hall.1, hall.2⟩
    | succ n =>
      show (a :: modifyAt r n f).all p = true
      rw [List.all_cons, Bool.and_eq_true]
      exact ⟨hall.1, ih n hall.2⟩

/-- modifyAt where only the value actually stored at i matters. -/
theorem all_modifyAt_of_get (p : α → Bool) (l : List α) (i : ℕ) (f : α → α)
    (hall : l.all p = true) (hf : ∀ x, l.get? i = some x → p (f x) = true) :
    (modifyAt l i f).all p = true := by
  induction l generalizing i with
  | nil => rfl
  | cons a r ih =>
    rw [List.all_cons, Bool.and_eq_true] at hall
    cases i with
    | zero =>
      show (f a :: r).all p = true
      rw [List.all_cons, Bool.and_eq_true]
      exact ⟨hf a rfl, hall.2⟩
    | succ n =>
      show (a :: modifyAt r n f).all p = true
      rw [List.all_cons, Bool.and_eq_true]
      exact ⟨hall.1, ih n hall.2 fun x hx => hf x hx⟩

/-- A resolved current reference satisfies the task bound when the
core does. -/
theorem resolve_taskInv (c : Core) (r : TaskRef) (t : Task)
    (hall : c.tasks.all TaskInvB = true) (hdet : detInvB (some r) = true)
    (hres : c.resolve r = some t) : TaskInvB t = true := by
  cases r with
  | inList i =>
    exact List.all_eq_true.mp hall t (List.get?_mem hres)
  | det t2 =>
    obtain rfl := Option.some.inj hres
    simpa [detInvB] using hdet

/-- doOverrideBranch preserves the core invariant. -/
theorem doOverrideBranch_inv (c c1 : Core) (hc : CoreInvB c = true)
    (h : doOverrideBranch c = some c1) : CoreInvB c1 = true := by
  obtain ⟨h1, h2, h3, h4⟩ := coreInv_parts c hc
  unfold doOverrideBranch at h
  cases hcur : c.current_task with
  | none =>
    rw [hcur] at h
    obtain rfl := Option.some.inj h
    exact coreInv_mk _ h1 rfl rfl h4
  | some r =>
    rw [hcur] at h
    dsimp only at h
    rcases hres : c.resolve r with _ | t
    · rw [hres] at h; cases h
    · rw [hres] at h
      dsimp only at h
      rcases Bool.eq_false_or_eq_true t.isPlan with hpl | hpl
      · rw [if_pos hpl] at h
        obtain rfl := Option.some.inj h
        cases r with
        | inList i =>
          dsimp only [Core.writeRef]
          exact coreInv_mk _ (all_modifyAt _ _ _ _ h1 TaskInvB_clearCurrentPath) h2 h2 h4
        | det t2 =>
          obtain rfl := Option.some.inj hres
          dsimp only [Core.writeRef]
          have hti : TaskInvB t2 = true := by
            rw [hcur] at h2
            simpa [detInvB] using h2
          have hdc : detInvB (some (.det t2.clearCurrentPath)) = true := by
            simpa [detInvB] using TaskInvB_clearCurrentPath t2 hti
          exact coreInv_mk _ h1 hdc hdc h4
      · rw [if_neg (by simp [hpl])] at h
        obtain rfl := Option.some.inj h
        exact coreInv_mk _ h1 h2 h2 h4

/-- overridePhase preserves the core invariant (either component). -/
theorem overridePhase_inv (c : Core) (hc : CoreInvB c = true) :
    CoreInvB (overridePhase c).1 = true := by
  obtain ⟨h1, h2, h3, h4⟩ := coreInv_parts c hc
  unfold overridePhase
  split
  · dsimp only
    have hcur1 : detInvB (match c.saved_task with
        | some r => some r
        | none => if c.tasks.length ≠ 0 then some (.inList 0) else none) = true := by
      cases hs : c.saved_task with
      | none =>
        dsimp only
        split
        · rfl
        · rfl
      | some r =>
        rw [hs] at h3
        exact h3
    split
    · exact coreInv_mk _ h1 hcur1 h3 rfl
    · exact coreInv_mk _ h1 hcur1 h3 rfl
  · exact hc

/-- restartPhase preserves the core invariant. -/
theorem restartPhase_inv (c : Core) (hc : CoreInvB c = true) :
    CoreInvB (restartPhase c) = true := by
  obtain ⟨h1, h2, h3, h4⟩ := coreInv_parts c hc
  unfold restartPhase
  split
  · split
    · exact hc
    · refine coreInv_mk _ ?_ rfl h3 h4
      rw [List.all_eq_true]
      intro t htm
      obtain ⟨t0, _, rfl⟩ := List.mem_map.mp htm
      exact TaskInvB_resetPlan t0
  · exact hc

/-- stepCurrent only produces list references. -/
theorem stepCurrent_detInv (c : Core) (cur1 : Option TaskRef)
    (h : stepCurrent c = some cur1) : detInvB cur1 = true := by
  unfold stepCurrent at h
  split at h
  · obtain rfl := Option.some.inj h
    split
    · rfl
    · rfl
  · split at h
    · cases h
    · split at h
      · obtain rfl := Option.some.inj h
        rfl
      · split at h
        · obtain rfl := Option.some.inj h
          split
          · rfl
          · rfl
        · obtain rfl := Option.some.inj h
          split
          · rfl
          · rfl

/-- doneBehaviorRef only produces list references or the synthesized
hover, both within the bound. -/
theorem doneBehaviorRef_detInv (c : Core) (e : Env) (cur1 : Option TaskRef)
    (h : detInvB cur1 = true) : detInvB (doneBehaviorRef c e cur1) = true := by
  unfold doneBehaviorRef
  cases cur1 with
  | some r => exact h
  | none =>
    dsimp only
    split
    · rfl
    · split
      · rfl
      · rfl

/-- applyPlanReset preserves the core invariant. -/
theorem applyPlanReset_inv (c : Core) (c1 : Core) (hc : CoreInvB c = true)
    (h : applyPlanReset c = some c1) : CoreInvB c1 = true := by
  obtain ⟨h1, h2, h3, h4⟩ := coreInv_parts c hc
  unfold applyPlanReset at h
  split at h
  · obtain rfl := Option.some.inj h
    exact hc
  · next r heq =>
    split at h
    · cases h
    · next v hres =>
      obtain rfl := Option.some.inj h
      split
      · next hpl =>
        cases r with
        | inList i =>
          dsimp only [Core.writeRef]
          exact coreInv_mk _ (all_modifyAt _ _ _ _ h1 fun x _ => TaskInvB_resetPlan x) h2 h3 h4
        | det t2 =>
          dsimp only [Core.writeRef]
          refine coreInv_mk _ h1 ?_ h3 h4
          exact TaskInvB_resetPlan t2
      · exact hc

/-- nextPrevPhase preserves the core invariant. -/
theorem nextPrevPhase_inv (c : Core) (e : Env) (c1 : Core) (hc : CoreInvB c = true)
    (h : nextPrevPhase c e = some c1) : CoreInvB c1 = true := by
  obtain ⟨h1, h2, h3, h4⟩ := coreInv_parts c hc
  unfold nextPrevPhase at h
  split at h
  · split at h
    · obtain rfl := Option.some.inj h
      exact hc
    · revert h
      split
      · intro h
        cases h
      · next cur1 hstep =>
        intro h
        refine applyPlanReset_inv _ _ ?_ h
        exact coreInv_mk _ h1
          (doneBehaviorRef_detInv c e cur1 (stepCurrent_detInv c cur1 hstep)) h3 h4
  · obtain rfl := Option.some.inj h
    exact hc

/-- gotoLinePhase preserves the core invariant: the installed line
number is range-checked against the plan it is written to. -/
theorem gotoLinePhase_inv (c : Core) (c1 : Core) (hc : CoreInvB c = true)
    (h : gotoLinePhase c = some c1) : CoreInvB c1 = true := by
  obtain ⟨h1, h2, h3, h4⟩ := coreInv_parts c hc
  unfold gotoLinePhase at h
  split at h
  · obtain rfl := Option.some.inj h
    exact hc
  · next r hcur =>
    revert h
    split
    · intro h
      cases h
    · next v hres =>
      intro h
      split at h
      · revert h
        split
        · intro h
          obtain rfl := Option.some.inj h
          exact hc
        · next p hpend =>
          intro h
          split at h
          · revert h
            split
            · next cmd arg hparts =>
              intro h
              revert h
              split
              · intro h
                cases h
              · next lineNo hint =>
                intro h
                revert h
                split
                · next lb2 sp2 dtr2 navs2 idx2 cp2 tp2 hpl2 =>
                  intro h
                  split at h
                  · next hrange =>
                    obtain rfl := Option.some.inj h
                    have hinv : TaskInvB (Task.missionPlan lb2 sp2
                        (if (cmd == "goto_line") = true then false
                         else if (cmd == "start_line") = true then true else dtr2)
                        navs2 (some lineNo) none tp2) = true := by
                      simp [TaskInvB, hrange.1, le_of_lt hrange.2]
                    cases r with
                    | inList i =>
                      dsimp only [Core.writeRef]
                      refine coreInv_mk _ ?_ h2 h3 h4
                      refine all_modifyAt_of_get _ _ _ _ h1 ?_
                      intro x hx
                      have hxv : x = Task.missionPlan lb2 sp2 dtr2 navs2 idx2 cp2 tp2 := by
                        have hrr : c.resolve (.inList i) = c.tasks.get? i := rfl
                        rw [hrr, hx] at hres
                        exact Option.some.inj hres
                      rw [hxv]
                      exact hinv
                    | det t2 =>
                      have ht2 : t2 = Task.missionPlan lb2 sp2 dtr2 navs2 idx2 cp2 tp2 :=
                        Option.some.inj hres
                      dsimp only [Core.writeRef]
                      refine coreInv_mk _ h1 ?_ h3 h4
                      rw [ht2]
                      simpa [detInvB] using hinv
                  · obtain rfl := Option.some.inj h
                    exact hc
                · intro h
                  obtain rfl := Option.some.inj h
                  exact hc
            · intro h
              obtain rfl := Option.some.inj h
              exact hc
          · obtain rfl := Option.some.inj h
            exact hc
      · obtain rfl := Option.some.inj h
        exact hc

/-- nextTask preserves the core invariant. -/
theorem nextTask_inv (c : Core) (e : Env) (c1 : Core) (hc : CoreInvB c = true)
    (h : nextTask c e = some c1) : CoreInvB c1 = true := by
  unfold nextTask at h
  split at h
  · exact doOverrideBranch_inv c c1 hc h
  · rcases ho : overridePhase c with ⟨c2, b⟩
    rw [ho] at h
    have hc2 : CoreInvB c2 = true := by
      have := overridePhase_inv c hc
      rw [ho] at this
      exact this
    cases b
    · dsimp only at h
      rcases hn : nextPrevPhase (restartPhase c2) e with _ | c3
      · rw [hn] at h
        cases h
      · rw [hn] at h
        dsimp only at h
        rcases hg : gotoLinePhase c3 with _ | c4
        · rw [hg] at h
          cases h
        · rw [hg] at h
          obtain rfl := Option.some.inj h
          have hc3 : CoreInvB c3 = true :=
            nextPrevPhase_inv _ e c3 (restartPhase_inv c2 hc2) hn
          have hc4 : CoreInvB c4 = true := gotoLinePhase_inv c3 c4 hc3 hg
          obtain ⟨g1, g2, g3, g4⟩ := coreInv_parts c4 hc4
          exact coreInv_mk _ g1 g2 g3 g4
    · obtain rfl := Option.some.inj h
      exact hc2

/-- MissionPlan.executeTask keeps the written-back task in bounds. -/
theorem executeTask_inv (t t1 : Task) (e : Env) (thresh : ℚ) (planner : String)
    (b : Bool) (out : String) (ht : TaskInvB t = true)
    (h : MissionPlan.executeTask t e thresh planner = some (t1, b, out)) :
    TaskInvB t1 = true := by
  unfold MissionPlan.executeTask at h
  split at h
  · next l s dt navs idx cp tp =>
    have hidx : 0 ≤ idx.getD 0 := by
      cases idx with
      | none => exact le_refl 0
      | some i =>
        simp only [TaskInvB, Bool.and_eq_true, decide_eq_true_eq] at ht
        exact ht.1
    dsimp only at h
    by_cases hge : idx.getD 0 ≥ (navs.length : ℤ)
    · rw [if_pos hge] at h
      have h2 := Option.some.inj h
      injection h2 with ha hrest
      rw [← ha]
      rfl
    · rw [if_neg hge] at h
      have hple : idx.getD 0 ≤ (navs.length : ℤ) := by omega
      rcases hpg : pyGet navs (idx.getD 0) with _ | obj
      · rw [hpg] at h
        cases h
      · rw [hpg] at h
        dsimp only at h
        split at h
        · have h2 := Option.some.inj h
          injection h2 with ha hrest
          rw [← ha]
          simp only [TaskInvB, Bool.and_eq_true, decide_eq_true_eq]
          exact ⟨hidx, hple⟩
        · rcases hcp : cp with _ | pth
          · rw [hcp] at h
            dsimp only at h
            split at h
            · have h2 := Option.some.inj h
              injection h2 with ha hrest
              rw [← ha]
              simp only [TaskInvB, Bool.and_eq_true, decide_eq_true_eq]
              exact ⟨hidx, hple⟩
            · have h2 := Option.some.inj h
              injection h2 with ha hrest
              rw [← ha]
              simp only [TaskInvB, Bool.and_eq_true, decide_eq_true_eq]
              exact ⟨hidx, hple⟩
          · rw [hcp] at h
            dsimp only at h
            have h2 := Option.some.inj h
            injection h2 with ha hrest
            rw [← ha]
            simp only [TaskInvB, Bool.and_eq_true, decide_eq_true_eq]
            exact ⟨hidx, hple⟩
  · cases h

/-- MissionPlan.execute preserves the core invariant. -/
theorem missionPlanExecute_inv (c : Core) (e : Env) (c1 : Core) (out : String)
    (hc : CoreInvB c = true) (h : MissionPlan.execute c e = some (c1, out)) :
    CoreInvB c1 = true := by
  obtain ⟨h1, h2, h3, h4⟩ := coreInv_parts c hc
  unfold MissionPlan.execute at h
  split at h
  · injection (Option.some.inj h) with h5 h6
    rw [← h5]
    exact hc
  · next r hcur =>
    revert h
    split
    · intro h
      cases h
    · next t hres =>
      intro h
      revert h
      split
      · intro h
        cases h
      · next t1 b out2 hexec =>
        intro h
        have hti : TaskInvB t = true := by
          refine resolve_taskInv c r t h1 ?_ hres
          rw [← hcur]
          exact h2
        have ht1 : TaskInvB t1 = true :=
          executeTask_inv t t1 e c.waypointThreshold c.planner b out2 hti hexec
        have hwr : CoreInvB (c.writeRef r fun _ => t1) = true := by
          cases r with
          | inList i =>
            dsimp only [Core.writeRef]
            exact coreInv_mk _ (all_modifyAt_of_get _ _ _ _ h1 fun x _ => ht1) h2 h3 h4
          | det t2 =>
            dsimp only [Core.writeRef]
            refine coreInv_mk _ h1 ?_ h3 h4
            simpa [detInvB] using ht1
        split at h
        · injection (Option.some.inj h) with h5 h6
          rw [← h5]
          obtain ⟨g1, g2, g3, g4⟩ := coreInv_parts _ hwr
          exact coreInv_mk _ g1 g2 g3 g4
        · injection (Option.some.inj h) with h5 h6
          rw [← h5]
          exact hwr

/-- lineAdvance keeps the task in bounds when the incoming index is
strictly below the objective count. -/
theorem lineAdvance_inv (t t1 : Task) (ht : TaskInvB t = true)
    (hstrict : ∀ l s dt navs idx cp, t = Task.missionPlan l s dt navs idx cp none →
      ∀ i, idx = some i → i < (navs.length : ℤ))
    (h : lineAdvance t = some t1) : TaskInvB t1 = true := by
  unfold lineAdvance at h
  split at h
  · next l s dt navs idx cp tp =>
    split at h
    · obtain rfl := Option.some.inj h
      simpa [TaskInvB] using ht
    · split at h
      · cases h
      · next i =>
        obtain rfl := Option.some.inj h
        have hlt : i < (navs.length : ℤ) := hstrict l s dt navs (some i) cp rfl i rfl
        have hge : 0 ≤ i := by
          simp only [TaskInvB, Bool.and_eq_true, decide_eq_true_eq] at ht
          exact ht.1
        simp only [TaskInvB, Bool.and_eq_true, decide_eq_true_eq]
        omega
  · cases h

/-- LineEnded.execute preserves the core invariant, given the entry
condition that the plan it advances has its index strictly below the
objective count (guaranteed by the state machine: FollowPath is only
entered for a plan after MissionPlan.execute checked the index). -/
theorem lineEndedExecute_inv (c : Core) (c1 : Core) (out : String)
    (hc : CoreInvB c = true) (hpre : lineEndedPreB c = true)
    (h : LineEnded.execute c = some (c1, out)) : CoreInvB c1 = true := by
  obtain ⟨h1, h2, h3, h4⟩ := coreInv_parts c hc
  unfold LineEnded.execute at h
  cases hov : c.override_task with
  | some t =>
    rw [hov] at h
    dsimp only at h
    have hgv : c.getCurrentVal = some t := by
      unfold Core.getCurrentVal
      rw [hov]
    have hto : TaskInvB t = true := by
      rw [hov] at h4
      simpa [ovrInvB] using h4
    split at h
    · rcases hla : lineAdvance t with _ | t1
      · rw [hla] at h
        cases h
      · rw [hla] at h
        injection (Option.some.inj h) with h5 h6
        rw [← h5]
        refine coreInv_mk _ h1 h2 h3 ?_
        have ht1 : TaskInvB t1 = true := by
          refine lineAdvance_inv t t1 hto ?_ hla
          intro l s dt navs idx cp hteq i hi
          subst hteq
          unfold lineEndedPreB at hpre
          rw [hgv] at hpre
          dsimp only at hpre
          rw [hi] at hpre
          dsimp only at hpre
          exact of_decide_eq_true hpre
        simpa [ovrInvB] using ht1
    · injection (Option.some.inj h) with h5 h6
      rw [← h5]
      exact coreInv_mk _ h1 h2 h3 (by rw [hov] at h4; exact h4)
  | none =>
    rw [hov] at h
    dsimp only at h
    cases hcur : c.current_task with
    | none =>
      rw [hcur] at h
      injection (Option.some.inj h) with h5 h6
      rw [← h5]
      exact coreInv_mk _ h1 rfl h3 rfl
    | some r =>
      rw [hcur] at h
      dsimp only at h
      rcases hres : c.resolve r with _ | t
      · rw [hres] at h
        cases h
      · rw [hres] at h
        dsimp only at h
        have hgv : c.getCurrentVal = some t := by
          unfold Core.getCurrentVal
          rw [hov, hcur]
          exact hres
        have hto : TaskInvB t = true := by
          refine resolve_taskInv c r t h1 ?_ hres
          rw [← hcur]
          exact h2
        split at h
        · rcases hla : lineAdvance t with _ | t1
          · rw [hla] at h
            cases h
          · rw [hla] at h
            injection (Option.some.inj h) with h5 h6
            rw [← h5]
            have ht1 : TaskInvB t1 = true := by
              refine lineAdvance_inv t t1 hto ?_ hla
              intro l s dt navs idx cp hteq i hi
              subst hteq
              unfold lineEndedPreB at hpre
              rw [hgv] at hpre
              dsimp only at hpre
              rw [hi] at hpre
              dsimp only at hpre
              exact of_decide_eq_true hpre
            cases r with
            | inList i =>
              dsimp only [Core.writeRef]
              exact coreInv_mk _ (all_modifyAt_of_get _ _ _ _ h1 fun x _ => ht1) h2 h3 h4
            | det t2 =>
              dsimp only [Core.writeRef]
              refine coreInv_mk _ h1 ?_ h3 h4
              simpa [detInvB] using ht1
        · injection (Option.some.inj h) with h5 h6
          rw [← h5]
          exact coreInv_mk _ h1 (by rw [hcur] at h2; exact h2) h3 rfl

/-- Mission-plan expansion establishes the (amended) per-task bound. -/
theorem parseMission_taskInv (f : PForest) (s : ℚ) (t : Task)
    (ht : t ∈ parseMission f s) : TaskInvB t = true := by
  obtain ⟨lb, sp, navs, rfl⟩ := parseMission_shape f s t ht
  simp [TaskInvB]

/-- C4 (amended): a mission plan's current_nav_objective_index, when
present, lies in [0, nav_objectives.length] (inclusive at the top,
where the claim said strictly less): mission-plan expansion
establishes it (with index 0), nextTask preserves it, the MissionPlan
state step preserves it, and the LineEnded state step preserves it
provided the advanced plan's index is strictly in range on entry,
which the state machine guarantees; LineEnded genuinely reaches
index = length when the last objective ends (see the counterexample),
after which MissionPlan.execute folds it back to None. -/
theorem c4_index_bound :
    (∀ f s t, t ∈ parseMission f s → TaskInvB t = true) ∧
    (∀ c e c1, CoreInvB c = true → nextTask c e = some c1 → CoreInvB c1 = true) ∧
    (∀ c e r, CoreInvB c = true → MissionPlan.execute c e = some r →
      CoreInvB r.1 = true) ∧
    (∀ c r, CoreInvB c = true → lineEndedPreB c = true → LineEnded.execute c = some r →
      CoreInvB r.1 = true) :=
  ⟨parseMission_taskInv,
   fun c e c1 hc h => nextTask_inv c e c1 hc h,
   fun c e r hc h => missionPlanExecute_inv c e r.1 r.2 hc h,
   fun c r hc hpre h => lineEndedExecute_inv c r.1 r.2 hc hpre h⟩

/-- C4 counterexample to the claim as stated: ending the last track
line leaves the index equal to nav_objectives.length, violating the
strict bound (it is healed only on the next MissionPlan step). -/
theorem c4_cex :
    LineEnded.execute ⟨[Task.missionPlan "P" 3 true [obj0] (some 0) (some [(1, 2)]) none],
        some (.inList 0), none, none, none, "hover", 5, 10, "path_follower"⟩ =
      some (⟨[Task.missionPlan "P" 3 true [obj0] (some 1) none none],
        some (.inList 0), none, none, none, "hover", 5, 10, "path_follower"⟩, "mission_plan") ∧
    TaskStrictB (Task.missionPlan "P" 3 true [obj0] (some 1) none none) = false ∧
    TaskStrictB (Task.missionPlan "P" 3 true [obj0] (some 0) (some [(1, 2)]) none) = true :=
  ⟨by decide, by decide, by decide⟩

/-- C4 witness: the four amended clauses at concrete inputs. -/
theorem c4_witness :
    TaskInvB (Task.missionPlan "L" 7 true [⟨"TrackLine", 0, "L", 0, 0, [(1, 2)], .nil⟩]
      (some 0) none none) = true ∧
    CoreInvB ⟨[Task.missionPlan "P" 3 true [obj0] none none none],
      some (.inList 0), none, none, none, "hover", 5, 10, "path_follower"⟩ = true ∧
    CoreInvB ⟨[Task.missionPlan "P" 3 true [obj0] (some 0) (some [(1, 2), (3, 4)])
        (some [(0, 0), (1, 2)])],
      some (.inList 0), none, none, none, "hover", 5, 10, "path_follower"⟩ = true ∧
    CoreInvB ⟨[Task.missionPlan "P" 3 true [obj0, obj0] (some 1) none none],
      some (.inList 0), none, none, none, "hover", 5, 10, "path_follower"⟩ = true :=
  ⟨c4_index_bound.1 (.cons "TrackLine" 0 "L" 0 0 [(1, 2)] .nil .nil) 7 _ (by decide),
   c4_index_bound.2.1
     ⟨[planP0], none, none, none, some "next_task", "hover", 5, 10, "path_follower"⟩ env0
     ⟨[Task.missionPlan "P" 3 true [obj0] none none none],
       some (.inList 0), none, none, none, "hover", 5, 10, "path_follower"⟩
     (by decide) (by decide),
   c4_index_bound.2.2.1
     ⟨[Task.missionPlan "P" 3 true [obj0] none none none],
       some (.inList 0), none, none, none, "hover", 5, 10, "path_follower"⟩ env0
     (⟨[Task.missionPlan "P" 3 true [obj0] (some 0) (some [(1, 2), (3, 4)])
         (some [(0, 0), (1, 2)])],
       some (.inList 0), none, none, none, "hover", 5, 10, "path_follower"⟩, "follow_path")
     (by decide) (by decide),
   c4_index_bound.2.2.2
     ⟨[Task.missionPlan "P" 3 true [obj0, obj0] (some 0) (some [(1, 2)]) none],
       some (.inList 0), none, none, none, "hover", 5, 10, "path_follower"⟩
     (⟨[Task.missionPlan "P" 3 true [obj0, obj0] (some 1) none none],
       some (.inList 0), none, none, none, "hover", 5, 10, "path_follower"⟩, "mission_plan")
     (by decide) (by decide) (by decide)⟩

end MM
